import Mathlib

/-!
Shallow embedding of the scheduled-tweet persistence and execution engine of
the x-automation repository (the scheduler module: `loadScheduledTweets`,
`saveScheduledTweets`, `scheduleTweet`, `removeScheduledTweet`,
`listScheduledTweets`, `startScheduler` and its per-timer firing callback,
together with the module-level `activeJobs` registry).

Modelling conventions:
* the JSON schedule file is a `Store := Option (List ScheduledTweet)`:
  `none` is a missing file, `some ts` a file holding `{"scheduled": ts}`;
* the `activeJobs` map (id -> cron job handle) is modelled by the list of its
  keys, since only registration/stop/removal of handles is observable;
* timestamps and the random id suffix are passed in as parameters
  (`nowMs`, `rand`, `nowIso`, `now`), standing for `Date.now()`,
  `Math.random().toString(36).substr(2, 9)` and `new Date().toISOString()`;
* the external `postTweetFn` collaborator is represented by a boolean
  `postOk` telling whether the awaited promise resolved or rejected; the
  text it is invoked with is returned in the `posted` component;
* a thrown validation error is an `Except.error`; the store component of
  the result is the file state after the call (unchanged when an error is
  thrown before any save).
-/

namespace XAutomation

/-- A scheduled tweet record, exactly the object literal built by
`scheduleTweet` and persisted in `data/scheduled-tweets.json`. -/
structure ScheduledTweet where
  id : String
  text : String
  cronExpression : String
  oneTime : Bool
  createdAt : String
  lastPosted : Option String
  postCount : Nat
deriving Repr, DecidableEq

/-- The persisted schedule file: `none` when the file does not exist,
`some ts` when it holds `{"scheduled": ts}`. -/
abbrev Store := Option (List ScheduledTweet)

/-- `loadScheduledTweets`: returns `[]` when the file is absent, otherwise the
parsed `scheduled` array. -/
def loadScheduledTweets (store : Store) : List ScheduledTweet :=
  match store with
  | none => []
  | some ts => ts

/-- `saveScheduledTweets`: overwrites the file with the given array. -/
def saveScheduledTweets (tweets : List ScheduledTweet) : Store :=
  some tweets

/-- The keys of the module-level `activeJobs` map. -/
abbrev ActiveJobs := List String

/-- `activeJobs.set(id, job)`: inserting a key into the map (an existing
binding for the same key is replaced, so the key appears once). -/
def registerJob (id : String) (jobs : ActiveJobs) : ActiveJobs :=
  id :: jobs.filter (fun j => j ≠ id)

/-- Splitting a character list at every occurrence of the separator `c`
(the char-level counterpart of JavaScript `String.prototype.split`). -/
def splitOnChar (c : Char) : List Char → List (List Char)
  | [] => [[]]
  | x :: xs =>
    let r := splitOnChar c xs
    if x = c then [] :: r
    else
      match r with
      | [] => [[x]]
      | y :: ys => (x :: y) :: ys

/-- Parsing a non-empty all-digit character list as a decimal number
(the char-level counterpart of `parseInt` on a numeric field). -/
def parseNatChars (cs : List Char) : Option Nat :=
  if cs ≠ [] && cs.all Char.isDigit then
    some (cs.foldl (fun acc c => acc * 10 + (c.toNat - 48)) 0)
  else
    none

/-- JavaScript `String.prototype.trim`: removes leading and trailing
whitespace characters. -/
def jsTrim (s : String) : String :=
  String.mk (((s.data.dropWhile Char.isWhitespace).reverse.dropWhile
    Char.isWhitespace).reverse)

/-- Modelled from the spec: the Recurrence Validator (`cron.validate` of the
`node-cron` dependency, whose implementation is not part of this repository).
Per the spec it accepts the standard five-field cron syntax
(minute, hour, day-of-month, month, day-of-week), each field accepting `*`,
single values, comma lists, ranges `a-b` and step values `*/n`, with
out-of-range field values (for example minute `99`) rejected.
`cronBaseOk lo hi s` checks one field without its step part. -/
def cronBaseOk (lo hi : Nat) (s : List Char) : Bool :=
  if s = ['*'] then true
  else
    (splitOnChar ',' s).all fun item =>
      match splitOnChar '-' item with
      | [v] =>
        match parseNatChars v with
        | some n => decide (lo ≤ n) && decide (n ≤ hi)
        | none => false
      | [a, b] =>
        match parseNatChars a, parseNatChars b with
        | some x, some y => decide (lo ≤ x) && decide (x ≤ y) && decide (y ≤ hi)
        | _, _ => false
      | _ => false

/-- Modelled from the spec: one cron field, allowing an optional `/step`
suffix with a positive numeric step. -/
def cronFieldOk (lo hi : Nat) (s : List Char) : Bool :=
  match splitOnChar '/' s with
  | [base] => cronBaseOk lo hi base
  | [base, step] =>
    cronBaseOk lo hi base &&
      (match parseNatChars step with
       | some n => decide (0 < n)
       | none => false)
  | _ => false

/-- Modelled from the spec: `cron.validate` — exactly five space-separated
fields, each within its standard range. -/
def cronValidate (expr : String) : Bool :=
  match splitOnChar ' ' (jsTrim expr).data with
  | [m, h, dom, mon, dow] =>
    cronFieldOk 0 59 m && cronFieldOk 0 23 h && cronFieldOk 1 31 dom &&
      cronFieldOk 1 12 mon && cronFieldOk 0 7 dow
  | _ => false

/-- The errors thrown synchronously by `scheduleTweet`. -/
inductive ScheduleError where
  | invalidCron (expr : String)
  | emptyText
  | textTooLong (len : Nat)
deriving Repr, DecidableEq

/-- `generateId`: `` `tweet_${Date.now()}_${Math.random()...}` ``. -/
def generateId (nowMs rand : String) : String :=
  "tweet_" ++ nowMs ++ "_" ++ rand

/-- `scheduleTweet(text, cronExpression, oneTime)`: validates the cron
expression, then the text (non-empty after trimming, at most 280 units
before trimming), then builds the record with trimmed text, appends it to
the loaded collection and saves. On a thrown error the store is untouched. -/
def scheduleTweet (text cronExpression : String) (oneTime : Bool)
    (nowMs rand nowIso : String) (store : Store) :
    Except ScheduleError ScheduledTweet × Store :=
  if !cronValidate cronExpression then
    (Except.error (ScheduleError.invalidCron cronExpression), store)
  else if (jsTrim text).length = 0 then
    (Except.error ScheduleError.emptyText, store)
  else if text.length > 280 then
    (Except.error (ScheduleError.textTooLong text.length), store)
  else
    let scheduledTweet : ScheduledTweet :=
      { id := generateId nowMs rand
        text := jsTrim text
        cronExpression := cronExpression
        oneTime := oneTime
        createdAt := nowIso
        lastPosted := none
        postCount := 0 }
    let tweets := loadScheduledTweets store
    (Except.ok scheduledTweet, saveScheduledTweets (tweets ++ [scheduledTweet]))

/-- `removeScheduledTweet(id)`: `findIndex` by id; when found (`index !== -1`,
i.e. the index is in range) splice it out, save, and stop/delete the active
job when registered; otherwise return `false` without saving. -/
def removeScheduledTweet (id : String) (store : Store) (jobs : ActiveJobs) :
    Bool × Store × ActiveJobs :=
  let tweets := loadScheduledTweets store
  let index := tweets.findIdx (fun t => t.id == id)
  if index < tweets.length then
    (true, saveScheduledTweets (tweets.eraseIdx index),
      if jobs.contains id then jobs.filter (fun j => j ≠ id) else jobs)
  else
    (false, store, jobs)

/-- `listScheduledTweets`: a pure read-through of the store (the console
output is not modelled). -/
def listScheduledTweets (store : Store) : List ScheduledTweet :=
  loadScheduledTweets store

/-- `startScheduler`: loads all persisted tweets and registers a cron job for
each (`activeJobs.set(tweet.id, job)` in order). The firing callbacks
themselves are modelled by `fireScheduledTweet` below. -/
def startScheduler (store : Store) (jobs : ActiveJobs) : ActiveJobs :=
  let tweets := loadScheduledTweets store
  tweets.foldl (fun js t => registerJob t.id js) jobs

/-- One invocation of the cron callback created by `startScheduler` for the
closure-captured record `tweet`. `postOk` tells whether
`await postTweetFn(tweet.text)` resolved; the `Option String` component
records the text `postTweetFn` was invoked with. On success the callback
re-loads the store, locates the entry by `tweet.id` (`findIndex`, found
exactly when the index is in range), sets `lastPosted`, increments
`postCount`, splices the entry out and stops/deletes its job when
`tweet.oneTime`, and saves; when the id is absent nothing is saved. On
rejection the catch block only logs. -/
def fireScheduledTweet (tweet : ScheduledTweet) (postOk : Bool) (now : String)
    (store : Store) (jobs : ActiveJobs) : Store × ActiveJobs × Option String :=
  if postOk then
    let allTweets := loadScheduledTweets store
    let tweetIndex := allTweets.findIdx (fun t => t.id == tweet.id)
    match allTweets[tweetIndex]? with
    | none => (store, jobs, some tweet.text)
    | some old =>
      let upd : ScheduledTweet :=
        { old with lastPosted := some now, postCount := old.postCount + 1 }
      let newTweets := allTweets.set tweetIndex upd
      if tweet.oneTime then
        (saveScheduledTweets (newTweets.eraseIdx tweetIndex),
          jobs.filter (fun j => j ≠ tweet.id), some tweet.text)
      else
        (saveScheduledTweets newTweets, jobs, some tweet.text)
  else
    (store, jobs, some tweet.text)

/-- First-match recursive presentation of the successful-post branch of the
firing callback: `none` when no entry of the list has the captured id (the
`findIndex` returned `-1` and nothing is saved); otherwise the list with the
first matching entry updated (`lastPosted := now`, `postCount + 1`) or, for a
one-time tweet, spliced out. Proved equal to the `findIndex`/`set`/`splice`
form in `fireUpdateList_eq_findIdx` below. -/
def fireUpdateList (id : String) (oneTime : Bool) (now : String) :
    List ScheduledTweet → Option (List ScheduledTweet)
  | [] => none
  | t :: ts =>
    if t.id == id then
      some (if oneTime then ts
            else { t with lastPosted := some now, postCount := t.postCount + 1 } :: ts)
    else
      (fireUpdateList id oneTime now ts).map (fun l => t :: l)

/-- The daemon-level state: the persisted file plus the in-memory registry. -/
structure EngineState where
  store : Store
  jobs : ActiveJobs
deriving Repr, DecidableEq

/-- The engine-level transition performed by an `addSchedule` call: the body
of `scheduleTweet` reads and writes only the schedule file and never
references `activeJobs`, so the registry component is carried through
unchanged. -/
def addScheduleStep (text cronExpression : String) (oneTime : Bool)
    (nowMs rand nowIso : String) (s : EngineState) :
    Except ScheduleError ScheduledTweet × EngineState :=
  let r := scheduleTweet text cronExpression oneTime nowMs rand nowIso s.store
  (r.1, { store := r.2, jobs := s.jobs })

/-- Concrete record: the entity created by
`scheduleTweet "Hello" "0 9 * * *" false` at time `t1`/`c1` with suffix `r1`. -/
def eHello : ScheduledTweet :=
  { id := "tweet_t1_r1", text := "Hello", cronExpression := "0 9 * * *"
    oneTime := false, createdAt := "c1", lastPosted := none, postCount := 0 }

/-- Concrete record: a one-time entry used to exercise the one-shot firing. -/
def eOnce : ScheduledTweet :=
  { id := "tweet_t3_r3", text := "Bye", cronExpression := "0 9 * * *"
    oneTime := true, createdAt := "c3", lastPosted := none, postCount := 0 }

/-- Concrete record: an entry whose timer closure captured it before a
concurrent `removeScheduledTweet` emptied the store. -/
def eClosure : ScheduledTweet :=
  { id := "tweet_t0_r0", text := "hello from closure", cronExpression := "0 9 * * *"
    oneTime := false, createdAt := "c0", lastPosted := none, postCount := 0 }

/-- Concrete text of 281 units whose trimmed form has 280: 280 letters
followed by a single trailing space. -/
def overlongPadded : String := String.mk (List.replicate 280 'a') ++ " "

theorem fireUpdateList_eq_findIdx (id : String) (oneTime : Bool) (now : String) :
    ∀ l : List ScheduledTweet,
      fireUpdateList id oneTime now l =
        match l[l.findIdx (fun t => t.id == id)]? with
        | none => none
        | some old =>
          some (if oneTime then
                  (l.set (l.findIdx (fun t => t.id == id))
                    { old with lastPosted := some now, postCount := old.postCount + 1 }).eraseIdx
                    (l.findIdx (fun t => t.id == id))
                else
                  l.set (l.findIdx (fun t => t.id == id))
                    { old with lastPosted := some now, postCount := old.postCount + 1 }) := by
  intro l
  induction l with
  | nil => simp [fireUpdateList]
  | cons t ts ih =>
    cases h : (t.id == id) with
    | true =>
      simp [fireUpdateList, List.findIdx_cons, h]
    | false =>
      simp [fireUpdateList, List.findIdx_cons, h, ih]
      cases h2 : ts[ts.findIdx (fun t => t.id == id)]? with
      | none => simp [h2]
      | some old =>
        cases oneTime <;> simp [h2]


theorem fireScheduledTweet_true_eq (tweet : ScheduledTweet) (now : String)
    (store : Store) (jobs : ActiveJobs) :
    fireScheduledTweet tweet true now store jobs =
      match fireUpdateList tweet.id tweet.oneTime now (loadScheduledTweets store) with
      | none => (store, jobs, some tweet.text)
      | some l =>
        (saveScheduledTweets l,
          if tweet.oneTime then jobs.filter (fun j => j ≠ tweet.id) else jobs,
          some tweet.text) := by
  rw [fireUpdateList_eq_findIdx]
  unfold fireScheduledTweet
  simp only [if_true]
  cases h2 : (loadScheduledTweets store)[(loadScheduledTweets store).findIdx
      (fun t => t.id == tweet.id)]? with
  | none => simp [h2]
  | some old => cases ho : tweet.oneTime <;> simp [h2, ho]

theorem fireUpdateList_none_of_find_none (id : String) (oneTime : Bool) (now : String) :
    ∀ l : List ScheduledTweet, l.find? (fun t => t.id == id) = none →
      fireUpdateList id oneTime now l = none := by
  intro l
  induction l with
  | nil => intro _; rfl
  | cons t ts ih =>
    intro h
    cases ht : (t.id == id) with
    | true => simp [List.find?_cons, ht] at h
    | false =>
      simp [List.find?_cons, ht] at h
      simp [fireUpdateList, ht,
        ih (List.find?_eq_none.mpr (by intro x hx; simpa using h x hx))]

theorem fireUpdateList_false_find (id now : String) :
    ∀ (l : List ScheduledTweet) (e : ScheduledTweet),
      l.find? (fun t => t.id == id) = some e →
      ∃ l', fireUpdateList id false now l = some l' ∧
        l'.find? (fun t => t.id == id) =
          some { e with lastPosted := some now, postCount := e.postCount + 1 } := by
  intro l
  induction l with
  | nil => intro e h; simp at h
  | cons t ts ih =>
    intro e h
    cases ht : (t.id == id) with
    | true =>
      simp [List.find?_cons, ht] at h
      subst h
      refine ⟨{ t with lastPosted := some now, postCount := t.postCount + 1 } :: ts,
        by simp [fireUpdateList, ht], ?_⟩
      simp [List.find?_cons, ht]
    | false =>
      simp only [List.find?_cons, ht] at h
      obtain ⟨l', hl', hf⟩ := ih e h
      refine ⟨t :: l', by simp [fireUpdateList, ht, hl'], ?_⟩
      simp [List.find?_cons, ht, hf]

theorem fireUpdateList_true_of_nodup (now : String) :
    ∀ (l : List ScheduledTweet) (e : ScheduledTweet),
      (l.map (fun t => t.id)).Nodup → e ∈ l →
      fireUpdateList e.id true now l = some (l.filter (fun t => t.id != e.id)) := by
  intro l
  induction l with
  | nil => intro e _ h; simp at h
  | cons t ts ih =>
    intro e hnd hm
    simp only [List.map_cons, List.nodup_cons] at hnd
    rcases List.mem_cons.mp hm with rfl | hmem
    · have hts : ts.filter (fun t => t.id != e.id) = ts := by
        apply List.filter_eq_self.mpr
        intro a ha
        have : a.id ≠ e.id := by
          intro hEq
          exact hnd.1 (hEq ▸ List.mem_map_of_mem (fun t => t.id) ha)
        simpa using this
      simp [fireUpdateList, hts]
    · have hne : t.id ≠ e.id := by
        intro hEq
        exact hnd.1 (hEq ▸ List.mem_map_of_mem (fun t => t.id) hmem)
      have hne' : (t.id == e.id) = false := by simpa using hne
      simp [fireUpdateList, hne', ih e hnd.2 hmem, List.filter_cons,
        show (t.id != e.id) = true by simpa using hne]

theorem eraseIdx_findIdx {α : Type} (p : α → Bool) :
    ∀ l : List α, l.eraseIdx (l.findIdx p) = l.eraseP p := by
  intro l
  induction l with
  | nil => rfl
  | cons t ts ih =>
    cases ht : p t with
    | true => simp [List.findIdx_cons, ht, List.eraseP_cons, List.eraseIdx]
    | false => simp [List.findIdx_cons, ht, List.eraseP_cons, List.eraseIdx, ih]

theorem eraseP_eq_filter_of_nodup (i : String) :
    ∀ l : List ScheduledTweet, (l.map (fun t => t.id)).Nodup →
      l.eraseP (fun t => t.id == i) = l.filter (fun t => t.id != i) := by
  intro l
  induction l with
  | nil => intro _; rfl
  | cons t ts ih =>
    intro hnd
    simp only [List.map_cons, List.nodup_cons] at hnd
    cases ht : (t.id == i) with
    | true =>
      have hti : t.id = i := by simpa using ht
      have hts : ts.filter (fun t => t.id != i) = ts := by
        apply List.filter_eq_self.mpr
        intro a ha
        have : a.id ≠ i := by
          intro hEq
          exact hnd.1 (by rw [hti, ← hEq]; exact List.mem_map_of_mem (fun t => t.id) ha)
        simpa using this
      simp [List.eraseP_cons, ht, List.filter_cons, hts, hti]
    | false =>
      simp [List.eraseP_cons, ht, List.filter_cons, ih hnd.2,
        show (t.id != i) = true by simpa using ht]

theorem findIdx_lt_length_iff_found {α : Type} (p : α → Bool) :
    ∀ l : List α, l.findIdx p < l.length ↔ ∃ a ∈ l, p a := by
  intro l
  induction l with
  | nil => simp [List.findIdx]
  | cons t ts ih =>
    cases ht : p t with
    | true => simp [List.findIdx_cons, ht, Nat.succ_pos]
    | false =>
      simp [List.findIdx_cons, ht, Nat.succ_lt_succ_iff, ih]

theorem removeScheduledTweet_found (id : String) (store : Store) (jobs : ActiveJobs)
    (h : ∃ e ∈ loadScheduledTweets store, e.id = id) :
    removeScheduledTweet id store jobs =
      (true,
        saveScheduledTweets ((loadScheduledTweets store).eraseP (fun t => t.id == id)),
        if jobs.contains id then jobs.filter (fun j => j ≠ id) else jobs) := by
  obtain ⟨e, he, hid⟩ := h
  have hlt : (loadScheduledTweets store).findIdx (fun t => t.id == id) <
      (loadScheduledTweets store).length :=
    (findIdx_lt_length_iff_found _ _).mpr ⟨e, he, by simpa using hid⟩
  unfold removeScheduledTweet
  simp [hlt, eraseIdx_findIdx]

theorem removeScheduledTweet_absent (id : String) (store : Store) (jobs : ActiveJobs)
    (h : ∀ e ∈ loadScheduledTweets store, e.id ≠ id) :
    removeScheduledTweet id store jobs = (false, store, jobs) := by
  have hnlt : ¬ ((loadScheduledTweets store).findIdx (fun t => t.id == id) <
      (loadScheduledTweets store).length) := by
    rw [findIdx_lt_length_iff_found]
    rintro ⟨a, ha, hpa⟩
    exact h a ha (by simpa using hpa)
  unfold removeScheduledTweet
  simp [hnlt]

/-- Claim C1, as frozen, is false of the code: the firing callback passes the
closure-captured `tweet.text` to `postFn` and only afterwards re-reads the
store, so a `removeScheduledTweet` between schedule time and fire time is not
observed before posting. Concretely: the closure captured `eClosure`, a
concurrent `removeScheduledTweet` emptied the store (returning `true`), and
the firing still posts the captured text although a fresh `load()` holds no
entry with that id. -/
theorem claimC1_counterexample :
    removeScheduledTweet eClosure.id (some [eClosure]) [eClosure.id] = (true, some [], []) ∧
    ¬ ((fireScheduledTweet eClosure true "t2" (some []) []).2.2 =
        ((loadScheduledTweets (some [])).find? (fun t => t.id == eClosure.id)).map
          (fun t => t.text)) := by
  refine ⟨by decide, by decide⟩

/-- Claim C1 (amended): every firing calls `postFn` with the closure-captured
text, and the fresh `load()` happens only afterwards, for the history update:
when the captured id is absent from the current store the update and save are
skipped, but the post has already been made with the captured text. -/
theorem fire_uses_closure_captured_text (tweet : ScheduledTweet) (postOk : Bool)
    (now : String) (store : Store) (jobs : ActiveJobs) :
    (fireScheduledTweet tweet postOk now store jobs).2.2 = some tweet.text ∧
    ((loadScheduledTweets store).find? (fun t => t.id == tweet.id) = none →
      fireScheduledTweet tweet postOk now store jobs = (store, jobs, some tweet.text)) := by
  constructor
  · cases postOk with
    | false => rfl
    | true =>
      rw [fireScheduledTweet_true_eq]
      cases h : fireUpdateList tweet.id tweet.oneTime now (loadScheduledTweets store) <;>
        simp [h]
  · intro h
    cases postOk with
    | false => rfl
    | true =>
      rw [fireScheduledTweet_true_eq,
        fireUpdateList_none_of_find_none tweet.id tweet.oneTime now _ h]

/-- Witness for the amended C1 at a concrete input: the captured entry's id is
absent from the store, yet the post is made with the captured text and the
state is untouched. -/
theorem fire_uses_closure_captured_text_witness :
    (fireScheduledTweet eClosure true "t2" (some []) []).2.2 = some eClosure.text ∧
    fireScheduledTweet eClosure true "t2" (some []) [] = (some [], [], some eClosure.text) :=
  ⟨(fire_uses_closure_captured_text eClosure true "t2" (some []) []).1,
    (fire_uses_closure_captured_text eClosure true "t2" (some []) []).2 (by decide)⟩

/-- Claim C2, as frozen, is false of the code: even with the engine running
(a non-empty registry), a successful `scheduleTweet` registers no live timer
for the new entry — its id is not in the registry afterwards. -/
theorem claimC2_counterexample :
    (addScheduleStep "Hello" "0 9 * * *" false "t1" "r1" "c1"
        { store := none, jobs := ["tweet_t0_r0"] }).1 = Except.ok eHello ∧
    ({ store := none, jobs := ["tweet_t0_r0"] } : EngineState).jobs ≠ [] ∧
    eHello.id ∉ (addScheduleStep "Hello" "0 9 * * *" false "t1" "r1" "c1"
        { store := none, jobs := ["tweet_t0_r0"] }).2.jobs := by
  refine ⟨by rfl, by decide, by decide⟩

/-- Claim C2 (amended): `scheduleTweet` never creates or registers a live
timer, whether or not the daemon is running; the registry is unchanged by an
add, and a new entry only gets a timer at the next `startScheduler`. -/
theorem addSchedule_never_registers_timer (text cronExpression : String) (oneTime : Bool)
    (nowMs rand nowIso : String) (s : EngineState) :
    (addScheduleStep text cronExpression oneTime nowMs rand nowIso s).2.jobs = s.jobs := rfl

/-- Claim C3: for a stored one-time entry, a firing with a successful post
removes the entry from the persisted store (the saved list is exactly the old
list without that id), every entry of the new store has a different id, and
the entry's timer is unregistered; in particular the persisted store never
shows the entry with an incremented `postCount`. -/
theorem oneTime_firing_removes_entry (tweet : ScheduledTweet) (now : String)
    (store : Store) (jobs : ActiveJobs)
    (hone : tweet.oneTime = true)
    (hmem : tweet ∈ loadScheduledTweets store)
    (hnd : ((loadScheduledTweets store).map (fun t => t.id)).Nodup) :
    (loadScheduledTweets (fireScheduledTweet tweet true now store jobs).1 =
      (loadScheduledTweets store).filter (fun t => t.id != tweet.id)) ∧
    (∀ t ∈ loadScheduledTweets (fireScheduledTweet tweet true now store jobs).1,
      t.id ≠ tweet.id) ∧
    tweet.id ∉ (fireScheduledTweet tweet true now store jobs).2.1 := by
  have hupd := fireUpdateList_true_of_nodup now (loadScheduledTweets store) tweet hnd hmem
  have hfire : fireScheduledTweet tweet true now store jobs =
      (saveScheduledTweets ((loadScheduledTweets store).filter (fun t => t.id != tweet.id)),
        jobs.filter (fun j => j ≠ tweet.id), some tweet.text) := by
    rw [fireScheduledTweet_true_eq, hone] at *
    rw [hupd]
    simp [hone]
  rw [hfire]
  refine ⟨rfl, ?_, ?_⟩
  · intro t ht
    have := (List.mem_filter.mp ht).2
    simpa using this
  · intro hmem2
    have := (List.mem_filter.mp hmem2).2
    simp at this

/-- Witness for C3 at a concrete one-time entry. -/
theorem oneTime_firing_removes_entry_witness :
    (loadScheduledTweets (fireScheduledTweet eOnce true "t4" (some [eOnce]) [eOnce.id]).1 =
      (loadScheduledTweets (some [eOnce])).filter (fun t => t.id != eOnce.id)) ∧
    (∀ t ∈ loadScheduledTweets (fireScheduledTweet eOnce true "t4" (some [eOnce]) [eOnce.id]).1,
      t.id ≠ eOnce.id) ∧
    eOnce.id ∉ (fireScheduledTweet eOnce true "t4" (some [eOnce]) [eOnce.id]).2.1 :=
  oneTime_firing_removes_entry eOnce "t4" (some [eOnce]) [eOnce.id] (by decide) (by decide)
    (by decide)

/-- Claim C4: for a stored recurring entry (`oneTime = false`, fresh with
`postCount = 0`), two firings whose posts succeed leave the entry present with
`postCount = 2` and `lastPosted` equal to the second firing's timestamp; the
registry is untouched by recurring firings. -/
theorem recurring_two_firings (tweet e : ScheduledTweet) (t1 t2 : String)
    (store : Store) (jobs jobs2 : ActiveJobs)
    (hone : tweet.oneTime = false)
    (hfind : (loadScheduledTweets store).find? (fun t => t.id == tweet.id) = some e)
    (hcount : e.postCount = 0) :
    ∃ l1 l2 : List ScheduledTweet,
      fireScheduledTweet tweet true t1 store jobs =
        (saveScheduledTweets l1, jobs, some tweet.text) ∧
      fireScheduledTweet tweet true t2 (saveScheduledTweets l1) jobs2 =
        (saveScheduledTweets l2, jobs2, some tweet.text) ∧
      l2.find? (fun t => t.id == tweet.id) =
        some { e with lastPosted := some t2, postCount := 2 } := by
  obtain ⟨l1, hl1, hf1⟩ :=
    fireUpdateList_false_find tweet.id t1 (loadScheduledTweets store) e hfind
  obtain ⟨l2, hl2, hf2⟩ := fireUpdateList_false_find tweet.id t2 l1 _ hf1
  refine ⟨l1, l2, ?_, ?_, ?_⟩
  · rw [fireScheduledTweet_true_eq, hone, hl1]
    rfl
  · rw [fireScheduledTweet_true_eq, hone]
    have hload : loadScheduledTweets (saveScheduledTweets l1) = l1 := rfl
    rw [hload, hl2]
    rfl
  · rw [hf2]
    simp [hcount]

/-- Witness for C4 at a concrete recurring entry. -/
theorem recurring_two_firings_witness :
    ∃ l1 l2 : List ScheduledTweet,
      fireScheduledTweet eHello true "t5" (some [eHello]) [eHello.id] =
        (saveScheduledTweets l1, [eHello.id], some eHello.text) ∧
      fireScheduledTweet eHello true "t6" (saveScheduledTweets l1) [eHello.id] =
        (saveScheduledTweets l2, [eHello.id], some eHello.text) ∧
      l2.find? (fun t => t.id == eHello.id) =
        some { eHello with lastPosted := some "t6", postCount := 2 } :=
  recurring_two_firings eHello eHello "t5" "t6" (some [eHello]) [eHello.id] [eHello.id]
    (by decide) (by decide) (by decide)

/-- Claim C5: a firing whose post fails (the awaited `postTweetFn` rejects)
leaves the persisted store and the registry exactly as they were — the catch
block only logs, so nothing is saved, no entry is removed, and the callback
returns normally instead of propagating the error. -/
theorem firing_failure_leaves_state (tweet : ScheduledTweet) (now : String)
    (store : Store) (jobs : ActiveJobs) :
    fireScheduledTweet tweet false now store jobs = (store, jobs, some tweet.text) := rfl

/-- Claim C6: for valid input (text non-empty after trimming and at most 280
units, syntactically valid five-field cron expression) `scheduleTweet`
succeeds, and the returned entity is exactly what a subsequent `load()`
appends to the previous collection, with trimmed text, `lastPosted = null`
and `postCount = 0`. -/
theorem addSchedule_valid_roundtrip (text cronExpression : String) (oneTime : Bool)
    (nowMs rand nowIso : String) (store : Store)
    (hne : jsTrim text ≠ "") (hlen : text.length ≤ 280)
    (hcron : cronValidate cronExpression = true) :
    ∃ e : ScheduledTweet,
      (scheduleTweet text cronExpression oneTime nowMs rand nowIso store).1 = Except.ok e ∧
      loadScheduledTweets (scheduleTweet text cronExpression oneTime nowMs rand nowIso store).2 =
        loadScheduledTweets store ++ [e] ∧
      e.id = generateId nowMs rand ∧ e.text = jsTrim text ∧
      e.cronExpression = cronExpression ∧ e.oneTime = oneTime ∧
      e.createdAt = nowIso ∧ e.lastPosted = none ∧ e.postCount = 0 := by
  have hlen0 : ¬ ((jsTrim text).length = 0) := by
    intro h0
    exact hne (String.ext (List.length_eq_zero.mp h0))
  have hgt : ¬ (text.length > 280) := by omega
  refine ⟨{ id := generateId nowMs rand, text := jsTrim text,
            cronExpression := cronExpression, oneTime := oneTime, createdAt := nowIso,
            lastPosted := none, postCount := 0 },
    ?_, ?_, rfl, rfl, rfl, rfl, rfl, rfl, rfl⟩
  · unfold scheduleTweet
    simp [hcron, hlen0, hgt]
  · unfold scheduleTweet
    simp [hcron, hlen0, hgt, loadScheduledTweets, saveScheduledTweets]

/-- Witness for C6 at a concrete valid input. -/
theorem addSchedule_valid_roundtrip_witness :
    ∃ e : ScheduledTweet,
      (scheduleTweet "Hello" "0 9 * * *" false "t1" "r1" "c1" none).1 = Except.ok e ∧
      loadScheduledTweets (scheduleTweet "Hello" "0 9 * * *" false "t1" "r1" "c1" none).2 =
        loadScheduledTweets none ++ [e] ∧
      e.id = generateId "t1" "r1" ∧ e.text = jsTrim "Hello" ∧
      e.cronExpression = "0 9 * * *" ∧ e.oneTime = false ∧
      e.createdAt = "c1" ∧ e.lastPosted = none ∧ e.postCount = 0 :=
  addSchedule_valid_roundtrip "Hello" "0 9 * * *" false "t1" "r1" "c1" none
    (by decide) (by decide) (by decide)

/-- Claim C7: for text that is empty after trimming or 281 or more units
long, `scheduleTweet` throws a validation error synchronously and the store
is untouched (the call returns before any save). -/
theorem addSchedule_rejects_invalid_text (text cronExpression : String) (oneTime : Bool)
    (nowMs rand nowIso : String) (store : Store)
    (h : jsTrim text = "" ∨ 281 ≤ text.length) :
    ∃ err : ScheduleError,
      scheduleTweet text cronExpression oneTime nowMs rand nowIso store =
        (Except.error err, store) := by
  unfold scheduleTweet
  cases hc : cronValidate cronExpression with
  | false => exact ⟨ScheduleError.invalidCron cronExpression, by simp [hc]⟩
  | true =>
    by_cases h0 : (jsTrim text).length = 0
    · exact ⟨ScheduleError.emptyText, by simp [hc, h0]⟩
    · have hlong : text.length > 280 := by
        rcases h with he | hl
        · exact absurd (by rw [he]; rfl) h0
        · omega
      exact ⟨ScheduleError.textTooLong text.length, by simp [hc, h0, hlong]⟩

/-- Witness for C7 at a whitespace-only text. -/
theorem addSchedule_rejects_invalid_text_witness :
    ∃ err : ScheduleError,
      scheduleTweet "   " "0 9 * * *" false "t1" "r1" "c1" none =
        (Except.error err, none) :=
  addSchedule_rejects_invalid_text "   " "0 9 * * *" false "t1" "r1" "c1" none
    (Or.inl (by decide))

/-- Claim C8: for a cron expression the Recurrence Validator rejects,
`scheduleTweet` throws the descriptive invalid-cron error before touching the
store, so nothing is persisted. -/
theorem addSchedule_rejects_invalid_cron (text cronExpression : String) (oneTime : Bool)
    (nowMs rand nowIso : String) (store : Store)
    (h : cronValidate cronExpression = false) :
    scheduleTweet text cronExpression oneTime nowMs rand nowIso store =
      (Except.error (ScheduleError.invalidCron cronExpression), store) := by
  unfold scheduleTweet
  simp [h]

/-- Witness for C8: a 3-field expression and an out-of-range minute are both
rejected with the store unchanged. -/
theorem addSchedule_rejects_invalid_cron_witness :
    cronValidate "* * *" = false ∧
    scheduleTweet "Hi" "* * *" false "t1" "r1" "c1" none =
      (Except.error (ScheduleError.invalidCron "* * *"), none) ∧
    cronValidate "99 * * * *" = false ∧
    scheduleTweet "Hi" "99 * * * *" false "t1" "r1" "c1" none =
      (Except.error (ScheduleError.invalidCron "99 * * * *"), none) :=
  ⟨by decide,
    addSchedule_rejects_invalid_cron "Hi" "* * *" false "t1" "r1" "c1" none (by decide),
    by decide,
    addSchedule_rejects_invalid_cron "Hi" "99 * * * *" false "t1" "r1" "c1" none (by decide)⟩

/-- Claim C9: removing the id of a stored entry (unique ids) returns `true`,
leaves a store without that id, unregisters the timer, and a second remove of
the same id returns `false` without modifying state; removing an absent id
returns `false` with store and registry untouched. -/
theorem removeSchedule_spec (id : String) (store : Store) (jobs : ActiveJobs) :
    ((∃ e ∈ loadScheduledTweets store, e.id = id) →
      ((loadScheduledTweets store).map (fun t => t.id)).Nodup →
      (removeScheduledTweet id store jobs).1 = true ∧
      (∀ t ∈ loadScheduledTweets (removeScheduledTweet id store jobs).2.1, t.id ≠ id) ∧
      id ∉ (removeScheduledTweet id store jobs).2.2 ∧
      removeScheduledTweet id (removeScheduledTweet id store jobs).2.1
          (removeScheduledTweet id store jobs).2.2 =
        (false, (removeScheduledTweet id store jobs).2.1,
          (removeScheduledTweet id store jobs).2.2)) ∧
    ((∀ e ∈ loadScheduledTweets store, e.id ≠ id) →
      removeScheduledTweet id store jobs = (false, store, jobs)) := by
  constructor
  · intro hex hnd
    have hr := removeScheduledTweet_found id store jobs hex
    rw [eraseP_eq_filter_of_nodup id _ hnd] at hr
    have habs : ∀ t ∈ loadScheduledTweets
        (saveScheduledTweets ((loadScheduledTweets store).filter (fun t => t.id != id))),
        t.id ≠ id := by
      intro t ht
      have := (List.mem_filter.mp ht).2
      simpa using this
    rw [hr]
    refine ⟨rfl, habs, ?_, ?_⟩
    · by_cases hc : jobs.contains id = true
      · simp only [hc, if_true]
        intro hmem
        have := (List.mem_filter.mp hmem).2
        simp at this
      · simp only [hc, if_false]
        intro hmem
        exact hc (List.elem_eq_true_of_mem hmem)
    · exact removeScheduledTweet_absent id _ _ habs
  · exact removeScheduledTweet_absent id store jobs

/-- Witness for C9 at a concrete store holding exactly one entry. -/
theorem removeSchedule_spec_witness :
    (removeScheduledTweet eHello.id (some [eHello]) [eHello.id]).1 = true ∧
    (∀ t ∈ loadScheduledTweets
      (removeScheduledTweet eHello.id (some [eHello]) [eHello.id]).2.1, t.id ≠ eHello.id) ∧
    eHello.id ∉ (removeScheduledTweet eHello.id (some [eHello]) [eHello.id]).2.2 ∧
    removeScheduledTweet eHello.id
        (removeScheduledTweet eHello.id (some [eHello]) [eHello.id]).2.1
        (removeScheduledTweet eHello.id (some [eHello]) [eHello.id]).2.2 =
      (false, (removeScheduledTweet eHello.id (some [eHello]) [eHello.id]).2.1,
        (removeScheduledTweet eHello.id (some [eHello]) [eHello.id]).2.2) :=
  (removeSchedule_spec eHello.id (some [eHello]) [eHello.id]).1
    ⟨eHello, by decide, rfl⟩ (by decide)

set_option maxRecDepth 40000 in
/-- Claim C10: the stored text is the trimmed input while the 280-unit check
is applied to the untrimmed input; consequently a 281-unit input whose
trimmed form has 280 units is rejected even though the text that would have
been stored satisfies the invariant. -/
theorem trim_vs_length_check :
    (∀ (text cronExpression : String) (oneTime : Bool) (nowMs rand nowIso : String)
        (store : Store) (e : ScheduledTweet) (store' : Store),
        scheduleTweet text cronExpression oneTime nowMs rand nowIso store =
          (Except.ok e, store') →
        e.text = jsTrim text ∧ text.length ≤ 280) ∧
    overlongPadded.length = 281 ∧ (jsTrim overlongPadded).length = 280 ∧
    scheduleTweet overlongPadded "0 9 * * *" false "t1" "r1" "c1" none =
      (Except.error (ScheduleError.textTooLong 281), none) := by
  refine ⟨?_, by decide, by decide, by rfl⟩
  intro text cronExpression oneTime nowMs rand nowIso store e store' h
  unfold scheduleTweet at h
  by_cases hc : cronValidate cronExpression = true
  · by_cases h0 : (jsTrim text).length = 0
    · simp [hc, h0] at h
    · by_cases hl : text.length > 280
      · simp [hc, h0, hl] at h
      · simp only [hc, h0, hl, Bool.not_true, Bool.false_eq_true, if_false, if_true,
          ite_false, ite_true] at h
        have he := congrArg Prod.fst h
        simp only [Except.ok.injEq] at he
        exact ⟨by rw [← he], by omega⟩
  · simp [hc] at h

/-- Witness for the universally quantified part of C10 at a concrete accepted
input. -/
theorem trim_vs_length_check_witness :
    eHello.text = jsTrim "Hello" ∧ ("Hello" : String).length ≤ 280 :=
  trim_vs_length_check.1 "Hello" "0 9 * * *" false "t1" "r1" "c1" none eHello
    (saveScheduledTweets [eHello]) (by rfl)

end XAutomation
